import Mathlib

/-!
Shallow embedding of the ledger logic of `streamlit_investment_tracker.py`
(Old Mirchi Investment Tracker).

The program keeps its whole state in two session variables:
`transactions` (a list of transaction dicts) and `serial_counter` (the next
serial to assign).  The operations embedded here are the ones the claims are
about:

* the add-transaction submit handler (source lines 221-237),
* the delete button handler (lines 263-270),
* the import handler for an uploaded JSON backup (lines 97-106),
* the export handler (lines 78-93),
* the clear handler (lines 109-114),
* the summary-statistics block (lines 126-137),
* the purpose grouping used by the analytics pie chart (lines 282-283).

Monetary amounts (Python floats holding currency values) are modelled as
`Rat`; dates and timestamps are the `YYYY-MM-DD` / ISO strings the program
itself stores.
-/

/-- One transaction record, as built by the add handler (lines 223-229):
a dict with keys `serial`, `date` (formatted `YYYY-MM-DD`), `purpose`,
`amount` and `created_at`. -/
structure Transaction where
  serial : Nat
  date : String
  purpose : String
  amount : Rat
  created_at : String
  deriving Repr, DecidableEq

/-- The session state owned by the ledger: `st.session_state.transactions`
and `st.session_state.serial_counter` (lines 58-61). -/
structure LedgerState where
  transactions : List Transaction
  serial_counter : Nat
  deriving Repr, DecidableEq

/-- Initial session state (lines 58-61): no transactions, counter 1. -/
def initialState : LedgerState := ⟨[], 1⟩

/-- Kind of a user-visible message set in `st.session_state.message`. -/
inductive MsgKind where
  | success
  | error
  deriving Repr, DecidableEq

/-- A `st.session_state.message` value: a `(kind, text)` pair. -/
structure Message where
  kind : MsgKind
  text : String
  deriving Repr, DecidableEq

/-- The add-transaction submit handler (lines 221-237).  The guard is
`if purpose and amount > 0:` — `purpose` is truthy exactly when it is a
non-empty string; no trimming happens anywhere.  On success a record with
`serial = serial_counter` is appended and the counter is incremented; on
failure the state is untouched and an error message is set.  `d` is the
chosen date already formatted `YYYY-MM-DD`, `now` the `created_at`
timestamp. -/
def addTransaction (s : LedgerState) (d p : String) (a : Rat) (now : String) :
    LedgerState × Message :=
  if p ≠ "" ∧ 0 < a then
    (⟨s.transactions ++ [⟨s.serial_counter, d, p, a, now⟩], s.serial_counter + 1⟩,
     ⟨.success, "Transaction added successfully! 🎉"⟩)
  else
    (s, ⟨.error, "Please fill all required fields with valid values"⟩)

/-- The delete button handler (lines 263-270): it keeps every transaction
whose serial differs from the serial of the clicked row (so it drops *all*
matches) and leaves `serial_counter` alone.  (The handler also
unconditionally sets a success message; no boolean is computed.) -/
def deleteTransaction (s : LedgerState) (serial : Nat) : LedgerState :=
  ⟨s.transactions.filter (fun t => t.serial ≠ serial), s.serial_counter⟩

/-- Body of the clear handler (lines 111-112): empty list, counter 1. -/
def clearData : LedgerState := ⟨[], 1⟩

/-- An exported JSON backup (lines 80-84): the transaction list, the
counter, and an export timestamp. -/
structure Snapshot where
  transactions : List Transaction
  serial_counter : Nat
  export_date : String
  deriving Repr, DecidableEq

/-- The export handler (lines 78-93): only when `st.session_state.transactions`
is truthy (non-empty) is a snapshot built and offered for download;
otherwise only a "No data to export" warning is shown and nothing is
produced. -/
def exportData (s : LedgerState) (now : String) : Option Snapshot :=
  if s.transactions ≠ [] then some ⟨s.transactions, s.serial_counter, now⟩
  else none

/-- A successfully parsed JSON object handed to the import handler: the
two keys it ever reads, each possibly absent (`transactions in data`,
`data.get(serial_counter, ...)`).  Any further keys (such as
`export_date`) are ignored by the handler. -/
structure ParsedData where
  transactions : Option (List Transaction)
  serial_counter : Option Nat
  deriving Repr, DecidableEq

/-- The import handler (lines 97-106) on an already-parsed object: if the
`transactions` key is present the state is overwritten wholesale — no
validation of serials, amounts or purposes happens — with the counter
taken from `serial_counter` or defaulting to `len(transactions) + 1`,
and a success message is set.  If the key is absent nothing at all
happens (no message, no error). -/
def importData (d : ParsedData) (s : LedgerState) : LedgerState × Option Message :=
  match d.transactions with
  | some ts =>
      (⟨ts, d.serial_counter.getD (ts.length + 1)⟩,
       some ⟨.success,
         "Successfully imported " ++ toString ts.length ++ " transactions!"⟩)
  | none => (s, none)

/-- View of an exported snapshot as the parsed object the import handler
receives: both keys present (the extra `export_date` key is ignored). -/
def Snapshot.toParsed (snap : Snapshot) : ParsedData :=
  ⟨some snap.transactions, some snap.serial_counter⟩

/-- The four summary statistics of lines 126-137. -/
structure SummaryStats where
  total_amount : Rat
  total_transactions : Nat
  avg_amount : Rat
  last_transaction_date : String
  deriving Repr, DecidableEq

/-- Latest transaction date: the maximum of the `date` column,
re-formatted `YYYY-MM-DD`.  On the zero-padded date strings the app
stores, lexicographic order agrees with
chronological order, so the maximum string is the maximum date. -/
def lastDate (ts : List Transaction) : String :=
  ((ts.map (·.date)).foldl max "")

/-- The summary-statistics block (lines 126-137): with a non-empty list it
computes sum, count, mean and latest date; with an empty list it uses
0, 0, 0 and the `"N/A"` sentinel. -/
def summary (s : LedgerState) : SummaryStats :=
  if s.transactions ≠ [] then
    ⟨((s.transactions.map (·.amount)).sum),
     s.transactions.length,
     ((s.transactions.map (·.amount)).sum) / (s.transactions.length : Rat),
     lastDate s.transactions⟩
  else ⟨0, 0, 0, "N/A"⟩

/-! ## Theorems -/

/-- C8: on the empty ledger the summary block yields total 0, count 0,
average 0 (no division by zero is attempted: the empty branch returns the
constant 0) and the `"N/A"` sentinel for the last transaction date. -/
theorem summary_empty (c : Nat) :
    summary ⟨[], c⟩ = ⟨0, 0, 0, "N/A"⟩ := by
  rfl

/-- C9: importing a parsed object that lacks the `transactions` key is a
silent no-op: the state is returned unchanged and no message (neither an
error nor a success notice) is produced, whatever the `serial_counter`
key holds. -/
theorem import_missing_key_noop (sc : Option Nat) (s : LedgerState) :
    importData ⟨none, sc⟩ s = (s, none) := by
  rfl

/-- C10: the export handler produces a snapshot exactly when the ledger is
non-empty, and any snapshot it produces carries that non-empty transaction
list — no exported snapshot ever has an empty `transactions` list. -/
theorem export_only_nonempty (s : LedgerState) (now : String) :
    (exportData s now = none ↔ s.transactions = []) ∧
    ∀ snap : Snapshot, exportData s now = some snap → snap.transactions ≠ [] := by
  constructor
  · unfold exportData
    by_cases h : s.transactions = [] <;> simp [h]
  · intro snap hsnap
    unfold exportData at hsnap
    by_cases h : s.transactions = []
    · simp [h] at hsnap
    · simp [h] at hsnap
      rw [← hsnap]
      exact h

/-- Witness for C10 at a concrete ledger: the exported snapshot of a
one-transaction ledger has a non-empty transaction list. -/
theorem export_only_nonempty_witness :
    (⟨[⟨1, "2024-01-05", "Kitchen Equipment", 50000, "t0"⟩],
      2⟩ : LedgerState).transactions ≠ [] :=
  (export_only_nonempty ⟨[⟨1, "2024-01-05", "Kitchen Equipment", 50000, "t0"⟩], 2⟩
    "2024-02-01").2
    ⟨[⟨1, "2024-01-05", "Kitchen Equipment", 50000, "t0"⟩], 2, "2024-02-01"⟩ rfl

/-- C2: export followed by import round-trips exactly.  Whenever the
export handler yields a snapshot (the ledger is non-empty, see C10),
feeding that snapshot to the import handler — from any intermediate state
`s2` — restores precisely the transactions and counter present at export
time: the import takes the list from the `transactions` key and the
counter from the `serial_counter` key, both of which the export wrote
verbatim. -/
theorem export_import_roundtrip (s1 s2 : LedgerState) (now : String)
    (h : s1.transactions ≠ []) :
    ∃ snap : Snapshot, exportData s1 now = some snap ∧
      (importData snap.toParsed s2).1 = s1 := by
  refine ⟨⟨s1.transactions, s1.serial_counter, now⟩, ?_, ?_⟩
  · unfold exportData
    simp [h]
  · rfl

/-- Witness for C2: a concrete two-transaction ledger exports and
re-imports to exactly itself. -/
theorem export_import_roundtrip_witness :
    (⟨[⟨1, "2024-01-05", "Kitchen Equipment", 50000, "t0"⟩,
       ⟨2, "2024-01-20", "Rent & Deposit", 30000, "t1"⟩], 3⟩ :
        LedgerState).transactions ≠ [] ∧
    ∃ snap : Snapshot,
      exportData ⟨[⟨1, "2024-01-05", "Kitchen Equipment", 50000, "t0"⟩,
        ⟨2, "2024-01-20", "Rent & Deposit", 30000, "t1"⟩], 3⟩ "t2" = some snap ∧
      (importData snap.toParsed initialState).1 =
        ⟨[⟨1, "2024-01-05", "Kitchen Equipment", 50000, "t0"⟩,
          ⟨2, "2024-01-20", "Rent & Deposit", 30000, "t1"⟩], 3⟩ :=
  ⟨by decide,
   export_import_roundtrip
     ⟨[⟨1, "2024-01-05", "Kitchen Equipment", 50000, "t0"⟩,
       ⟨2, "2024-01-20", "Rent & Deposit", 30000, "t1"⟩], 3⟩
     initialState "t2" (by decide)⟩

/-- Original ledger used in the C1 counterexample. -/
def c1State : LedgerState :=
  ⟨[⟨1, "2024-01-01", "Rent & Deposit", 30000, "t0"⟩], 2⟩

/-- Supplied snapshot of the C1 counterexample: two transactions that share
`serial = 7`. -/
def c1BadList : List Transaction :=
  [⟨7, "2024-01-05", "Kitchen Equipment", 50000, "t1"⟩,
   ⟨7, "2024-01-06", "Insurance", 1000, "t2"⟩]

/-- Counterexample to C1: importing a snapshot whose two transactions both
carry `serial = 7` does not fail — the handler reports success and
overwrites the existing ledger (the resulting state differs from the
original), so no `ImportValidationError` is raised and the existing state
is not preserved. -/
theorem import_duplicate_serial_cex :
    ¬ (c1BadList.map (·.serial)).Nodup ∧
    (importData ⟨some c1BadList, some 9⟩ c1State).2 =
      some ⟨.success, "Successfully imported 2 transactions!"⟩ ∧
    (importData ⟨some c1BadList, some 9⟩ c1State).1 ≠ c1State := by
  refine ⟨by decide, rfl, by decide⟩

/-- C1 amended: the import handler performs no validation at all.  Even
when the supplied counter is ≤ some supplied serial, or the supplied
transactions contain a duplicate serial, a non-positive amount, or an
empty purpose, the import succeeds: the ledger is overwritten with exactly
the supplied transactions and counter and a success message is set —
never an `ImportValidationError`, and the prior state is not kept. -/
theorem import_never_validates (s : LedgerState) (ts : List Transaction) (c : Nat)
    (h : ¬ (ts.map (·.serial)).Nodup ∨ (∃ t ∈ ts, c ≤ t.serial) ∨
         (∃ t ∈ ts, t.amount ≤ 0) ∨ (∃ t ∈ ts, t.purpose = "")) :
    importData ⟨some ts, some c⟩ s =
      (⟨ts, c⟩, some ⟨.success,
        "Successfully imported " ++ toString ts.length ++ " transactions!"⟩) := by
  rfl

/-- Witness for C1 amended at the duplicate-serial snapshot. -/
theorem import_never_validates_witness :
    (¬ (c1BadList.map (·.serial)).Nodup ∨
      (∃ t ∈ c1BadList, 9 ≤ t.serial) ∨
      (∃ t ∈ c1BadList, t.amount ≤ 0) ∨ (∃ t ∈ c1BadList, t.purpose = "")) ∧
    importData ⟨some c1BadList, some 9⟩ c1State =
      (⟨c1BadList, 9⟩, some ⟨.success,
        "Successfully imported " ++ toString c1BadList.length ++ " transactions!"⟩) :=
  ⟨Or.inl (by decide), import_never_validates c1State c1BadList 9 (Or.inl (by decide))⟩

/-- Counterexample to C4: a purpose consisting only of whitespace — hence
empty after trimming — with a positive amount is *accepted*: the guard
`if purpose and amount > 0` only tests string truthiness, so a transaction
is appended (state mutated) and a success message is produced instead of
a `ValidationError`. -/
theorem add_whitespace_purpose_cex :
    (" ").data.all Char.isWhitespace = true ∧
    (addTransaction initialState "2024-01-01" " " 1 "t0").1.transactions.length = 1 ∧
    (addTransaction initialState "2024-01-01" " " 1 "t0").2.kind = .success := by
  refine ⟨by decide, by decide, by decide⟩

/-- C4 amended: calling add with `amount ≤ 0`, or with a purpose that is
exactly the empty string, fails with the error message and leaves the
transactions and counter exactly unchanged.  (A whitespace-only purpose is
*not* rejected: the handler does no trimming.) -/
theorem add_invalid_rejected (s : LedgerState) (d p : String) (a : Rat) (now : String)
    (h : a ≤ 0 ∨ p = "") :
    addTransaction s d p a now =
      (s, ⟨.error, "Please fill all required fields with valid values"⟩) := by
  unfold addTransaction
  rcases h with h | h
  · rw [if_neg]
    rintro ⟨-, ha⟩
    exact absurd ha (not_lt.mpr h)
  · rw [if_neg]
    rintro ⟨hp, -⟩
    exact hp h

/-- Witness for C4 amended: adding with amount 0 is rejected and the
initial state is returned unchanged. -/
theorem add_invalid_rejected_witness :
    ((0 : Rat) ≤ 0 ∨ ("Insurance" : String) = "") ∧
    addTransaction initialState "2024-01-01" "Insurance" 0 "t0" =
      (initialState, ⟨.error, "Please fill all required fields with valid values"⟩) :=
  ⟨Or.inl le_rfl,
   add_invalid_rejected initialState "2024-01-01" "Insurance" 0 "t0" (Or.inl le_rfl)⟩

/-- Ledger of the C3 counterexample: one stored transaction whose serial
equals the current counter.  It is reachable — the import handler accepts
exactly this state, see `add_fresh_serial_cex`. -/
def c3State : LedgerState := ⟨[⟨1, "2024-01-01", "Insurance", 100, "t0"⟩], 1⟩

/-- Counterexample to C3: `c3State` is reachable by a single import from
the initial state; the add input is valid (non-empty purpose, positive
amount); yet the appended transaction reuses serial 1, which equals the
serial already stored — the new serial does *not* differ from every serial
in the ledger. -/
theorem add_fresh_serial_cex :
    (importData ⟨some [⟨1, "2024-01-01", "Insurance", 100, "t0"⟩], some 1⟩
        initialState).1 = c3State ∧
    (("Legal Fees" : String) ≠ "" ∧ (0 : Rat) < 200) ∧
    ((addTransaction c3State "2024-01-02" "Legal Fees" 200 "t1").1.transactions.map
      (·.serial)) = [1, 1] := by
  refine ⟨by decide, ⟨by decide, by decide⟩, by decide⟩

/-- C3 amended: on any ledger whose stored serials are all below the
current counter (the invariant of C7, which holds as long as imports are
well-formed), a valid add appends exactly one transaction carrying
`serial = serial_counter`, keeps every previously stored transaction
unchanged, bumps the counter by exactly 1, and the new serial differs from
every stored serial. -/
theorem add_valid_appends (s : LedgerState) (d p : String) (a : Rat) (now : String)
    (hp : p ≠ "") (ha : 0 < a)
    (hserials : ∀ t ∈ s.transactions, t.serial < s.serial_counter) :
    (addTransaction s d p a now).1.transactions =
      s.transactions ++ [⟨s.serial_counter, d, p, a, now⟩] ∧
    (addTransaction s d p a now).1.serial_counter = s.serial_counter + 1 ∧
    ∀ t ∈ s.transactions, t.serial ≠ s.serial_counter := by
  refine ⟨?_, ?_, ?_⟩
  · simp [addTransaction, hp, ha]
  · simp [addTransaction, hp, ha]
  · intro t ht
    exact Nat.ne_of_lt (hserials t ht)

/-- Witness for C3 amended at a concrete one-transaction ledger. -/
theorem add_valid_appends_witness :
    (("Marketing & Advertising" : String) ≠ "" ∧ (0 : Rat) < 2500 ∧
      (∀ t ∈ (⟨[⟨1, "2024-01-05", "Kitchen Equipment", 50000, "t0"⟩], 2⟩ :
        LedgerState).transactions, t.serial < 2)) ∧
    ((addTransaction ⟨[⟨1, "2024-01-05", "Kitchen Equipment", 50000, "t0"⟩], 2⟩
        "2024-01-06" "Marketing & Advertising" 2500 "t1").1.transactions =
      [⟨1, "2024-01-05", "Kitchen Equipment", 50000, "t0"⟩] ++
        [⟨2, "2024-01-06", "Marketing & Advertising", 2500, "t1"⟩] ∧
     (addTransaction ⟨[⟨1, "2024-01-05", "Kitchen Equipment", 50000, "t0"⟩], 2⟩
        "2024-01-06" "Marketing & Advertising" 2500 "t1").1.serial_counter = 2 + 1 ∧
     ∀ t ∈ (⟨[⟨1, "2024-01-05", "Kitchen Equipment", 50000, "t0"⟩], 2⟩ :
        LedgerState).transactions, t.serial ≠ 2) :=
  ⟨⟨by decide, by decide, by decide⟩,
   add_valid_appends ⟨[⟨1, "2024-01-05", "Kitchen Equipment", 50000, "t0"⟩], 2⟩
     "2024-01-06" "Marketing & Advertising" 2500 "t1"
     (by decide) (by decide) (by decide)⟩

/-- Dropping the matching serial from a list that contains it strictly
shortens the list. -/
theorem filter_ne_serial_length_lt (k : Nat) :
    ∀ ts : List Transaction, k ∈ ts.map (·.serial) →
      (ts.filter (fun t => t.serial ≠ k)).length < ts.length := by
  intro ts
  induction ts with
  | nil => intro h; simp at h
  | cons t ts ih =>
      intro h
      by_cases hk : t.serial = k
      · have : (t :: ts).filter (fun t => t.serial ≠ k) =
            ts.filter (fun t => t.serial ≠ k) := by
          simp [List.filter_cons, hk]
        rw [this]
        exact Nat.lt_succ_of_le (List.length_filter_le _ _)
      · have hmem : k ∈ ts.map (·.serial) := by
          rcases List.mem_map.mp h with ⟨u, hu, hku⟩
          rcases List.mem_cons.mp hu with hu | hu
          · exact absurd (hu ▸ hku) hk
          · exact List.mem_map.mpr ⟨u, hu, hku⟩
        have : (t :: ts).filter (fun t => t.serial ≠ k) =
            t :: ts.filter (fun t => t.serial ≠ k) := by
          simp [List.filter_cons, hk]
        rw [this]
        exact Nat.succ_lt_succ (ih hmem)

/-- With pairwise-distinct serials, dropping the matching serial removes
exactly one record. -/
theorem filter_ne_serial_length_nodup (k : Nat) :
    ∀ ts : List Transaction, k ∈ ts.map (·.serial) →
      (ts.map (·.serial)).Nodup →
      (ts.filter (fun t => t.serial ≠ k)).length + 1 = ts.length := by
  intro ts
  induction ts with
  | nil => intro h; simp at h
  | cons t ts ih =>
      intro h hn
      rw [List.map_cons, List.nodup_cons] at hn
      by_cases hk : t.serial = k
      · have hfix : ts.filter (fun t => t.serial ≠ k) = ts := by
          apply List.filter_eq_self.mpr
          intro u hu
          have : u.serial ≠ k := by
            intro hc
            exact hn.1 (by rw [hk, ← hc]; exact List.mem_map.mpr ⟨u, hu, rfl⟩)
          simpa using this
        have hstep : (t :: ts).filter (fun t => t.serial ≠ k) = ts := by
          rw [List.filter_cons, if_neg (by simp [hk]), hfix]
        rw [hstep, List.length_cons]
      · have hmem : k ∈ ts.map (·.serial) := by
          rcases List.mem_map.mp h with ⟨u, hu, hku⟩
          rcases List.mem_cons.mp hu with hu | hu
          · exact absurd (hu ▸ hku) hk
          · exact List.mem_map.mpr ⟨u, hu, hku⟩
        have : (t :: ts).filter (fun t => t.serial ≠ k) =
            t :: ts.filter (fun t => t.serial ≠ k) := by
          simp [List.filter_cons, hk]
        rw [this]
        simpa using ih hmem hn.2

/-- Two records sharing `serial = 7`, as supplied to the import handler in
the C5 counterexample. -/
def c5List : List Transaction :=
  [⟨7, "2024-02-01", "Staff Recruitment", 8000, "u1"⟩,
   ⟨7, "2024-02-02", "Utilities Setup", 4000, "u2"⟩]

/-- Ledger with two stored transactions that share `serial = 7`; reachable
by one import of `c5List` (see `delete_removes_all_matches_cex`). -/
def c5State : LedgerState := ⟨c5List, 9⟩

/-- Counterexample to C5: on a (reachable) ledger holding two transactions
with `serial = 7`, deleting serial 7 removes *both* records, not exactly
one — the handler filters out every match. -/
theorem delete_removes_all_matches_cex :
    (importData ⟨some c5List, some 9⟩ initialState).1 = c5State ∧
    c5State.transactions.length = 2 ∧
    (deleteTransaction c5State 7).transactions = [] := by
  refine ⟨by decide, by decide, by decide⟩

/-- C5 amended: deleting a serial that is present removes *every* record
carrying it (a removal occurs, and with pairwise-distinct serials — the
invariant of C7 — exactly one record is removed); an immediately repeated
delete of the same serial changes nothing; and no delete call, on any
ledger, ever changes `serial_counter`. -/
theorem delete_spec (s : LedgerState) (k : Nat)
    (h : k ∈ s.transactions.map (·.serial)) :
    (deleteTransaction s k).transactions.length < s.transactions.length ∧
    (∀ t ∈ (deleteTransaction s k).transactions, t.serial ≠ k) ∧
    deleteTransaction (deleteTransaction s k) k = deleteTransaction s k ∧
    ((s.transactions.map (·.serial)).Nodup →
      (deleteTransaction s k).transactions.length + 1 = s.transactions.length) ∧
    ∀ (s' : LedgerState) (j : Nat),
      (deleteTransaction s' j).serial_counter = s'.serial_counter := by
  refine ⟨filter_ne_serial_length_lt k s.transactions h, ?_, ?_, ?_, ?_⟩
  · intro t ht
    simp only [deleteTransaction] at ht
    have := List.of_mem_filter ht
    simpa using this
  · simp only [deleteTransaction]
    congr 1
    apply List.filter_eq_self.mpr
    intro u hu
    simpa using (List.mem_filter.mp hu).2
  · intro hn
    exact filter_ne_serial_length_nodup k s.transactions h hn
  · intro s' j
    rfl

/-- Ledger with distinct serials used as the C5 witness input. -/
def c5WState : LedgerState :=
  ⟨[⟨1, "2024-01-05", "Kitchen Equipment", 50000, "t0"⟩,
    ⟨7, "2024-01-20", "Rent & Deposit", 30000, "t1"⟩], 8⟩

/-- Witness for C5 amended: deleting serial 7 from a two-transaction
ledger with distinct serials. -/
theorem delete_spec_witness :
    (7 ∈ c5WState.transactions.map (·.serial)) ∧
    ((deleteTransaction c5WState 7).transactions.length <
        c5WState.transactions.length ∧
     (∀ t ∈ (deleteTransaction c5WState 7).transactions, t.serial ≠ 7) ∧
     deleteTransaction (deleteTransaction c5WState 7) 7 =
        deleteTransaction c5WState 7 ∧
     ((c5WState.transactions.map (·.serial)).Nodup →
       (deleteTransaction c5WState 7).transactions.length + 1 =
         c5WState.transactions.length) ∧
     ∀ (s' : LedgerState) (j : Nat),
       (deleteTransaction s' j).serial_counter = s'.serial_counter) :=
  ⟨by decide, delete_spec c5WState 7 (by decide)⟩

/-- Stable insertion used to model a sort: `x` is placed before the first
element `y` such that `x` must come before `y` (`bef x y`), hence after
every element it does not have to precede — equal elements keep their
relative order. -/
def insertBy {α : Type} (bef : α → α → Bool) (x : α) : List α → List α
  | [] => [x]
  | y :: ys => if bef x y then x :: y :: ys else y :: insertBy bef x ys

/-- Stable insertion sort: elements are inserted left to right, so two
elements neither of which must precede the other keep their input order. -/
def sortBy {α : Type} (bef : α → α → Bool) (l : List α) : List α :=
  l.foldl (fun acc x => insertBy bef x acc) []

/-- The distinct purposes of a transaction list. -/
def purposes (ts : List Transaction) : List String :=
  (ts.map (·.purpose)).dedup

/-- Sum of the amounts of the transactions with exactly this purpose. -/
def purposeTotal (ts : List Transaction) (p : String) : Rat :=
  ((ts.filter (fun t => t.purpose = p)).map (·.amount)).sum

/-- Lexicographic comparison of character lists: the order Python and
pandas use on strings (code-point by code-point, shorter prefix first). -/
def charListLt : List Char → List Char → Bool
  | [], [] => false
  | [], _ :: _ => true
  | _ :: _, [] => false
  | a :: as, b :: bs => if a < b then true else if b < a then false else charListLt as bs

/-- Lexicographic string comparison, on the underlying character data. -/
def strLt (a b : String) : Bool := charListLt a.data b.data

/-- The grouping `df.groupby(purpose)[amount].sum().reset_index()` of
line 282: one
row per distinct purpose with the summed amount; pandas `groupby` sorts
the group keys ascending (its `sort=True` default), which erases the row
order of the frame it is given. -/
def groupedByPurpose (ts : List Transaction) : List (String × Rat) :=
  (sortBy strLt (purposes ts)).map (fun p => (p, purposeTotal ts p))

/-- The sort `purpose_summary.sort_values(amount, ascending=False)` of
line 283 on the grouped frame.  For descending order pandas reverses the
column, runs an ascending argsort, and reverses the result again, so
ties keep their original row order exactly when the underlying numpy
argsort is stable.  The default `kind=quicksort` is introsort, which is
*not* stable in general: it hands partitions of at most 16 rows
(`SMALL_QUICKSORT = 15`) to its insertion-sort branch, and only that
branch is stable.  This definition models the sort as the stable
descending insertion sort, and is therefore faithful to the program
exactly when the grouped frame has at most 16 rows (at most 16 distinct
purposes); `purpose_summary_spec` carries that bound as a hypothesis.
For larger frames the tie order of the program is implementation-defined
and is not modelled here. -/
def purpose_summary (s : LedgerState) : List (String × Rat) :=
  sortBy (fun x y => decide (y.2 < x.2)) (groupedByPurpose s.transactions)

/-- The order actually realised by the analytics grouping: strictly larger
total first; equal totals alphabetically (lexicographically) by purpose. -/
def rankBefore (x y : String × Rat) : Prop :=
  y.2 < x.2 ∨ (x.2 = y.2 ∧ strLt x.1 y.1 = true)

theorem mem_insertBy {α : Type} (bef : α → α → Bool) (x : α) :
    ∀ l : List α, ∀ z ∈ insertBy bef x l, z = x ∨ z ∈ l := by
  intro l
  induction l with
  | nil => intro z hz; simpa [insertBy] using hz
  | cons y ys ih =>
      intro z hz
      rw [insertBy] at hz
      by_cases hb : bef x y
      · rw [if_pos hb] at hz
        rcases List.mem_cons.mp hz with hz | hz
        · exact Or.inl hz
        · exact Or.inr hz
      · rw [if_neg hb] at hz
        rcases List.mem_cons.mp hz with hz | hz
        · exact Or.inr (hz ▸ List.mem_cons_self y _)
        · rcases ih z hz with hz | hz
          · exact Or.inl hz
          · exact Or.inr (List.mem_cons_of_mem y hz)

theorem insertBy_perm {α : Type} (bef : α → α → Bool) (x : α) :
    ∀ l : List α, (insertBy bef x l).Perm (x :: l) := by
  intro l
  induction l with
  | nil => simp [insertBy]
  | cons y ys ih =>
      rw [insertBy]
      by_cases hb : bef x y
      · rw [if_pos hb]
      · rw [if_neg hb]
        exact (ih.cons y).trans (List.Perm.swap x y ys)

theorem pairwise_insertBy {α : Type} {R : α → α → Prop}
    (ht : ∀ a b c : α, R a b → R b c → R a c) (bef : α → α → Bool) (x : α) :
    ∀ l : List α, l.Pairwise R →
      (∀ y ∈ l, (bef x y = true → R x y) ∧ (bef x y = false → R y x)) →
      (insertBy bef x l).Pairwise R := by
  intro l
  induction l with
  | nil => intro _ _; simp [insertBy]
  | cons y ys ih =>
      intro hl hcmp
      rw [List.pairwise_cons] at hl
      rw [insertBy]
      by_cases hb : bef x y
      · rw [if_pos hb]
        have hxy : R x y := (hcmp y (List.mem_cons_self y ys)).1 hb
        refine List.pairwise_cons.mpr ⟨?_, List.pairwise_cons.mpr ⟨hl.1, hl.2⟩⟩
        intro z hz
        rcases List.mem_cons.mp hz with hz | hz
        · exact hz ▸ hxy
        · exact ht x y z hxy (hl.1 z hz)
      · rw [if_neg hb]
        have hyx : R y x :=
          (hcmp y (List.mem_cons_self y ys)).2 (Bool.eq_false_iff.mpr hb)
        refine List.pairwise_cons.mpr ⟨?_, ?_⟩
        · intro z hz
          rcases mem_insertBy bef x ys z hz with hz | hz
          · exact hz ▸ hyx
          · exact hl.1 z hz
        · exact ih hl.2 (fun u hu => hcmp u (List.mem_cons_of_mem y hu))

theorem foldl_insertBy_perm {α : Type} (bef : α → α → Bool) :
    ∀ l acc : List α,
      (l.foldl (fun a x => insertBy bef x a) acc).Perm (acc ++ l) := by
  intro l
  induction l with
  | nil => intro acc; simp
  | cons x xs ih =>
      intro acc
      have h1 : ((x :: xs).foldl (fun a x => insertBy bef x a) acc) =
          xs.foldl (fun a x => insertBy bef x a) (insertBy bef x acc) := rfl
      rw [h1]
      have h2 := ih (insertBy bef x acc)
      have h3 : (insertBy bef x acc ++ xs).Perm ((x :: acc) ++ xs) :=
        (insertBy_perm bef x acc).append_right xs
      have h4 : ((x :: acc) ++ xs : List α) = x :: (acc ++ xs) := rfl
      have h5 : (x :: (acc ++ xs) : List α).Perm (acc ++ x :: xs) :=
        List.perm_middle.symm
      exact h2.trans (h3.trans (h4 ▸ h5))

theorem sortBy_perm {α : Type} (bef : α → α → Bool) (l : List α) :
    (sortBy bef l).Perm l := by
  simpa using foldl_insertBy_perm bef l []

theorem foldl_insertBy_pairwise {α : Type} {R : α → α → Prop}
    (ht : ∀ a b c : α, R a b → R b c → R a c) (bef : α → α → Bool) :
    ∀ l acc : List α, acc.Pairwise R →
      (∀ x ∈ l, ∀ y ∈ acc, (bef x y = true → R x y) ∧ (bef x y = false → R y x)) →
      l.Pairwise (fun a b => (bef b a = true → R b a) ∧ (bef b a = false → R a b)) →
      (l.foldl (fun a x => insertBy bef x a) acc).Pairwise R := by
  intro l
  induction l with
  | nil => intro acc hacc _ _; simpa using hacc
  | cons x xs ih =>
      intro acc hacc hcmp hl
      rw [List.pairwise_cons] at hl
      refine ih (insertBy bef x acc) ?_ ?_ hl.2
      · refine pairwise_insertBy ht bef x acc hacc ?_
        intro y hy
        exact hcmp x (List.mem_cons_self x xs) y hy
      · intro z hz y hy
        rcases mem_insertBy bef x acc y hy with hy | hy
        · exact hy ▸ hl.1 z hz
        · exact hcmp z (List.mem_cons_of_mem x hz) y hy

theorem sortBy_pairwise {α : Type} {R : α → α → Prop}
    (ht : ∀ a b c : α, R a b → R b c → R a c) (bef : α → α → Bool) (l : List α)
    (hl : l.Pairwise (fun a b =>
      (bef b a = true → R b a) ∧ (bef b a = false → R a b))) :
    (sortBy bef l).Pairwise R := by
  refine foldl_insertBy_pairwise ht bef l [] List.Pairwise.nil ?_ hl
  intro x _ y hy
  exact absurd hy (List.not_mem_nil y)

/-- The group keys produced by `groupby` are in strictly ascending
alphabetical order. -/
theorem charListLt_trans :
    ∀ a b c : List Char, charListLt a b = true → charListLt b c = true →
      charListLt a c = true := by
  intro a
  induction a with
  | nil =>
      intro b c hab hbc
      cases b with
      | nil => simp [charListLt] at hab
      | cons bh bt =>
          cases c with
          | nil => simp [charListLt] at hbc
          | cons ch ct => rfl
  | cons ah as ih =>
      intro b c hab hbc
      cases b with
      | nil => simp [charListLt] at hab
      | cons bh bt =>
          cases c with
          | nil => simp [charListLt] at hbc
          | cons ch ct =>
              rw [charListLt] at hab hbc ⊢
              rcases lt_trichotomy ah bh with h1 | h1 | h1
              · rcases lt_trichotomy bh ch with h2 | h2 | h2
                · rw [if_pos (lt_trans h1 h2)]
                · rw [if_pos (h2 ▸ h1)]
                · rw [if_neg (lt_asymm h2), if_pos h2] at hbc
                  exact absurd hbc (by simp)
              · subst h1
                rw [if_neg (lt_irrefl ah), if_neg (lt_irrefl ah)] at hab
                rcases lt_trichotomy ah ch with h2 | h2 | h2
                · rw [if_pos h2]
                · subst h2
                  rw [if_neg (lt_irrefl ah), if_neg (lt_irrefl ah)] at hbc ⊢
                  exact ih bt ct hab hbc
                · rw [if_neg (lt_asymm h2), if_pos h2] at hbc
                  exact absurd hbc (by simp)
              · rw [if_neg (lt_asymm h1), if_pos h1] at hab
                exact absurd hab (by simp)

theorem charListLt_conn :
    ∀ a b : List Char, a ≠ b → charListLt a b = true ∨ charListLt b a = true := by
  intro a
  induction a with
  | nil =>
      intro b hne
      cases b with
      | nil => exact absurd rfl hne
      | cons bh bt => exact Or.inl rfl
  | cons ah as ih =>
      intro b hne
      cases b with
      | nil => exact Or.inr rfl
      | cons bh bt =>
          rcases lt_trichotomy ah bh with h | h | h
          · exact Or.inl (by rw [charListLt, if_pos h])
          · subst h
            have hne' : as ≠ bt := fun hc => hne (by rw [hc])
            rcases ih bt hne' with h' | h'
            · refine Or.inl ?_
              rw [charListLt, if_neg (lt_irrefl ah), if_neg (lt_irrefl ah)]
              exact h'
            · refine Or.inr ?_
              rw [charListLt, if_neg (lt_irrefl ah), if_neg (lt_irrefl ah)]
              exact h'
          · exact Or.inr (by rw [charListLt, if_pos h])

theorem strLt_trans : ∀ a b c : String, strLt a b = true → strLt b c = true →
    strLt a c = true :=
  fun a b c => charListLt_trans a.data b.data c.data

theorem strLt_conn : ∀ a b : String, a ≠ b →
    strLt a b = true ∨ strLt b a = true := by
  intro a b hne
  refine charListLt_conn a.data b.data ?_
  intro hc
  apply hne
  cases a
  cases b
  exact congrArg String.mk hc

theorem purposes_sorted (ts : List Transaction) :
    (sortBy strLt (purposes ts)).Pairwise (fun a b => strLt a b = true) := by
  refine sortBy_pairwise strLt_trans _ _ ?_
  have hnd : (purposes ts).Nodup := List.nodup_dedup _
  refine List.Pairwise.imp ?_ hnd
  intro a b hne
  refine ⟨fun hd => hd, fun hd => ?_⟩
  rcases strLt_conn a b hne with h | h
  · exact h
  · exact absurd h (by simp [hd])

theorem rankBefore_trans :
    ∀ x y z : String × Rat, rankBefore x y → rankBefore y z → rankBefore x z := by
  rintro x y z (h1 | ⟨h1e, h1l⟩) (h2 | ⟨h2e, h2l⟩)
  · exact Or.inl (lt_trans h2 h1)
  · exact Or.inl (h2e ▸ h1)
  · exact Or.inl (h1e.symm ▸ h2)
  · exact Or.inr ⟨h1e.trans h2e, strLt_trans _ _ _ h1l h2l⟩

theorem groupedByPurpose_pairwise (ts : List Transaction) :
    (groupedByPurpose ts).Pairwise (fun x y => strLt x.1 y.1 = true) := by
  unfold groupedByPurpose
  rw [List.pairwise_map]
  exact purposes_sorted ts

/-- The purposes listed by `groupedByPurpose` are exactly the distinct
purposes of the transaction list, alphabetically sorted. -/
theorem groupedByPurpose_fst (ts : List Transaction) :
    (groupedByPurpose ts).map Prod.fst = sortBy strLt (purposes ts) := by
  unfold groupedByPurpose
  rw [List.map_map]
  exact List.map_id' _

/-- C6 amended: when the ledger has at most 16 distinct purposes — the
regime in which the numpy introsort behind `sort_values` runs only its
stable insertion-sort branch, and the only regime modelled here — the
analytics grouping has one row per distinct purpose string (exact
match), each row holding the summed amounts of that purpose, and rows
are ordered by strictly descending total; rows with *equal* totals
appear in ascending alphabetical purpose order — the alphabetical order
`groupby` pre-sorts its keys into — not in the order the purposes were
first encountered in the transaction sequence.  Beyond 16 distinct
purposes the sort is documented unstable and the tie order is
implementation-defined. -/
theorem purpose_summary_spec (s : LedgerState)
    (h : (groupedByPurpose s.transactions).length ≤ 16) :
    ((purpose_summary s).map Prod.fst).Nodup ∧
    (∀ p : String, p ∈ (purpose_summary s).map Prod.fst ↔
      p ∈ s.transactions.map (·.purpose)) ∧
    (∀ pr ∈ purpose_summary s, pr.2 = purposeTotal s.transactions pr.1) ∧
    (purpose_summary s).Pairwise rankBefore := by
  have hperm : (purpose_summary s).Perm (groupedByPurpose s.transactions) :=
    sortBy_perm _ _
  have hsp : (sortBy strLt (purposes s.transactions)).Perm
      (purposes s.transactions) := sortBy_perm _ _
  have hchain : ((purpose_summary s).map Prod.fst).Perm (purposes s.transactions) := by
    refine (hperm.map Prod.fst).trans ?_
    rw [groupedByPurpose_fst]
    exact hsp
  refine ⟨?_, ?_, ?_, ?_⟩
  · exact hchain.nodup_iff.mpr (List.nodup_dedup _)
  · intro p
    rw [hchain.mem_iff]
    exact List.mem_dedup
  · intro pr hpr
    have : pr ∈ groupedByPurpose s.transactions := hperm.mem_iff.mp hpr
    unfold groupedByPurpose at this
    rcases List.mem_map.mp this with ⟨p, _, hpe⟩
    rw [← hpe]
  · refine sortBy_pairwise rankBefore_trans _ _ ?_
    refine List.Pairwise.imp ?_ (groupedByPurpose_pairwise s.transactions)
    intro a b h1
    refine ⟨fun hd => Or.inl (of_decide_eq_true hd), fun hd => ?_⟩
    rcases lt_or_eq_of_le (le_of_not_lt (of_decide_eq_false hd)) with hlt | heq
    · exact Or.inl hlt
    · exact Or.inr ⟨heq.symm, h1⟩

/-- Ledger of the C6 counterexample and witness: two purposes with equal
totals, "Utilities Setup" encountered before "Insurance". -/
def c6State : LedgerState :=
  ⟨[⟨1, "2024-03-01", "Utilities Setup", 5000, "v1"⟩,
    ⟨2, "2024-03-02", "Insurance", 5000, "v2"⟩], 3⟩

/-- Witness for C6 amended at a concrete two-purpose ledger (2 distinct
purposes, well inside the 16-row insertion-sort regime). -/
theorem purpose_summary_spec_witness :
    (groupedByPurpose c6State.transactions).length ≤ 16 ∧
    (((purpose_summary c6State).map Prod.fst).Nodup ∧
     (∀ p : String, p ∈ (purpose_summary c6State).map Prod.fst ↔
       p ∈ c6State.transactions.map (·.purpose)) ∧
     (∀ pr ∈ purpose_summary c6State,
       pr.2 = purposeTotal c6State.transactions pr.1) ∧
     (purpose_summary c6State).Pairwise rankBefore) :=
  ⟨by decide, purpose_summary_spec c6State (by decide)⟩

/-- Counterexample to C6: with equal group totals, the first-encountered
purpose is "Utilities Setup", so the claim predicts it first; the code
instead emits "Insurance" first, because `groupby` pre-sorts the groups
alphabetically and the amount sort keeps that order on ties. -/
theorem purpose_summary_tie_cex :
    (c6State.transactions.map (·.purpose)) = ["Utilities Setup", "Insurance"] ∧
    purpose_summary c6State = [("Insurance", 5000), ("Utilities Setup", 5000)] := by
  constructor
  · decide
  · have h1 : purposeTotal c6State.transactions "Insurance" = 5000 := by
      have hf : c6State.transactions.filter (fun t => t.purpose = "Insurance") =
          [⟨2, "2024-03-02", "Insurance", 5000, "v2"⟩] := by decide
      unfold purposeTotal
      rw [hf]
      norm_num
    have h2 : purposeTotal c6State.transactions "Utilities Setup" = 5000 := by
      have hf : c6State.transactions.filter (fun t => t.purpose = "Utilities Setup") =
          [⟨1, "2024-03-01", "Utilities Setup", 5000, "v1"⟩] := by decide
      unfold purposeTotal
      rw [hf]
      norm_num
    have h3 : groupedByPurpose c6State.transactions =
        [("Insurance", 5000), ("Utilities Setup", 5000)] := by
      unfold groupedByPurpose
      have hp : sortBy strLt (purposes c6State.transactions) =
          ["Insurance", "Utilities Setup"] := by decide
      rw [hp, List.map_cons, List.map_cons, List.map_nil, h1, h2]
    unfold purpose_summary
    rw [h3]
    decide

/-- One user-driven ledger operation of the app: submitting the add form,
clicking a delete button, uploading a backup (import), or clearing. -/
inductive Op where
  | addOp (d p : String) (a : Rat) (now : String)
  | deleteOp (serial : Nat)
  | importOp (pd : ParsedData)
  | clearOp
  deriving Repr, DecidableEq

/-- The state transition each operation performs. -/
def applyOp (s : LedgerState) : Op → LedgerState
  | .addOp d p a now => (addTransaction s d p a now).1
  | .deleteOp k => deleteTransaction s k
  | .importOp pd => (importData pd s).1
  | .clearOp => clearData

/-- Run a session: a sequence of operations from the initial state. -/
def runOps (ops : List Op) : LedgerState :=
  ops.foldl applyOp initialState

/-- Run a session while recording the serial assigned by every
*successful* add — the "serials ever added in this session". -/
def applyOpTracked (acc : LedgerState × List Nat) (op : Op) :
    LedgerState × List Nat :=
  match op with
  | .addOp d p a now =>
      if p ≠ "" ∧ 0 < a then
        ((addTransaction acc.1 d p a now).1, acc.2 ++ [acc.1.serial_counter])
      else (acc.1, acc.2)
  | _ => (applyOp acc.1 op, acc.2)

def runOpsTracked (ops : List Op) : LedgerState × List Nat :=
  ops.foldl applyOpTracked (initialState, [])

/-- The invariant the code actually maintains between imports: stored
serials are pairwise distinct and all below the counter. -/
def goodState (s : LedgerState) : Prop :=
  (s.transactions.map (·.serial)).Nodup ∧
  ∀ t ∈ s.transactions, t.serial < s.serial_counter

/-- An operation is a well-formed import when it is not an import at all,
or its snapshot has pairwise-distinct serials all below the counter that
will be installed (the explicit one, or the `len + 1` fallback). -/
def Op.wellFormedImport : Op → Bool
  | .importOp pd =>
      match pd.transactions with
      | some ts =>
          decide ((ts.map (·.serial)).Nodup) &&
            ts.all (fun t => t.serial < pd.serial_counter.getD (ts.length + 1))
      | none => true
  | _ => true

theorem goodState_applyOp (s : LedgerState) (op : Op)
    (hs : goodState s) (hop : op.wellFormedImport = true) :
    goodState (applyOp s op) := by
  cases op with
  | addOp d p a now =>
      show goodState (addTransaction s d p a now).1
      unfold addTransaction
      by_cases hc : p ≠ "" ∧ 0 < a
      · rw [if_pos hc]
        constructor
        · show ((s.transactions ++
            [Transaction.mk s.serial_counter d p a now]).map
              (fun t : Transaction => t.serial)).Nodup
          rw [List.map_append]
          refine List.Nodup.append hs.1 (List.nodup_singleton _) ?_
          intro x hx hx'
          rcases List.mem_map.mp hx with ⟨t, ht, hts⟩
          rw [List.map_singleton, List.mem_singleton] at hx'
          exact absurd (hts.trans hx') (Nat.ne_of_lt (hs.2 t ht))
        · intro t ht
          rcases List.mem_append.mp ht with ht | ht
          · exact Nat.lt_succ_of_lt (hs.2 t ht)
          · rw [List.mem_singleton] at ht
            rw [ht]
            exact Nat.lt_succ_self _
      · rw [if_neg hc]
        exact hs
  | deleteOp k =>
      constructor
      · refine hs.1.sublist ?_
        exact (List.filter_sublist s.transactions).map (·.serial)
      · intro t ht
        exact hs.2 t (List.mem_of_mem_filter ht)
  | importOp pd =>
      show goodState (importData pd s).1
      unfold importData
      cases hpd : pd.transactions with
      | none => exact hs
      | some ts =>
          have hop' : (decide ((ts.map (·.serial)).Nodup) &&
              ts.all (fun t =>
                decide (t.serial < pd.serial_counter.getD (ts.length + 1)))) = true := by
            have h0 : (match pd.transactions with
              | some us =>
                  decide ((us.map (·.serial)).Nodup) &&
                    us.all (fun t =>
                      decide (t.serial < pd.serial_counter.getD (us.length + 1)))
              | none => true) = true := hop
            rw [hpd] at h0
            exact h0
          rw [Bool.and_eq_true] at hop'
          constructor
          · exact of_decide_eq_true hop'.1
          · intro t ht
            exact of_decide_eq_true (List.all_eq_true.mp hop'.2 t ht)
  | clearOp =>
      exact ⟨List.nodup_nil, by intro t ht; exact absurd ht (List.not_mem_nil t)⟩

theorem goodState_foldl :
    ∀ (ops : List Op) (s : LedgerState), goodState s →
      (∀ op ∈ ops, op.wellFormedImport = true) →
      goodState (ops.foldl applyOp s) := by
  intro ops
  induction ops with
  | nil => intro s hs _; exact hs
  | cons op ops ih =>
      intro s hs hops
      refine ih (applyOp s op) ?_ ?_
      · exact goodState_applyOp s op hs (hops op (List.mem_cons_self op ops))
      · intro o ho
        exact hops o (List.mem_cons_of_mem op ho)

/-- C7 amended: after any sequence of operations from the empty ledger in
which the snapshot of every import is well-formed (distinct serials, all below
the installed counter), the stored serials are pairwise distinct and
`serial_counter` is strictly greater than every serial currently stored.
Without the import restriction the claim fails, and the "ever added in
the session" bound fails once `clear` (or an import) resets the counter —
see `ledger_invariant_cex`. -/
theorem ledger_invariant (ops : List Op)
    (h : ∀ op ∈ ops, op.wellFormedImport = true) :
    goodState (runOps ops) :=
  goodState_foldl ops initialState
    ⟨List.nodup_nil, by intro t ht; exact absurd ht (List.not_mem_nil t)⟩ h

/-- Snapshot of the C7 counterexample: two transactions sharing serial 7,
installed with counter 1. -/
def c7Bad : ParsedData :=
  ⟨some [⟨7, "2024-04-01", "Legal Fees", 1200, "w2"⟩,
         ⟨7, "2024-04-02", "Miscellaneous", 300, "w3"⟩], some 1⟩

/-- Operation sequence of the C7 counterexample: one valid add, a clear,
then an import of a duplicate-serial snapshot with counter 1. -/
def c7Ops : List Op :=
  [.addOp "2024-01-01" "Insurance" 100 "w1", .clearOp, .importOp c7Bad]

/-- Counterexample to C7: after this operation sequence from the empty
ledger the stored serials are `[7, 7]` — not unique — and the counter is
1 while serial 1 was assigned by an add earlier in the session, so
`serial_counter > max(serial ever added)` fails as well. -/
theorem ledger_invariant_cex :
    ((runOpsTracked c7Ops).1.transactions.map (·.serial)) = [7, 7] ∧
    ¬ ((runOpsTracked c7Ops).1.transactions.map (·.serial)).Nodup ∧
    (runOpsTracked c7Ops).2 = [1] ∧
    ¬ (∀ m ∈ (runOpsTracked c7Ops).2, m < (runOpsTracked c7Ops).1.serial_counter) := by
  refine ⟨by decide, by decide, by decide, by decide⟩

/-- Operation sequence of the C7 witness: adds, a delete, a well-formed
import, and a clear. -/
def c7WOps : List Op :=
  [.addOp "2024-01-05" "Kitchen Equipment" 50000 "x1",
   .addOp "2024-01-20" "Rent & Deposit" 30000 "x2",
   .deleteOp 1,
   .importOp ⟨some [⟨4, "2024-02-01", "Insurance", 900, "x3"⟩], some 6⟩,
   .addOp "2024-02-02" "Miscellaneous" 10 "x4"]

/-- Witness for C7 amended on a concrete five-operation session. -/
theorem ledger_invariant_witness :
    (∀ op ∈ c7WOps, op.wellFormedImport = true) ∧ goodState (runOps c7WOps) :=
  ⟨by decide, ledger_invariant c7WOps (by decide)⟩
